import Mathlib

/-!
Verification of the voice-signature pipeline of `personal-brand-dna`
(`src/ai-pipeline`), shallowly embedded in Lean 4.

Python floats are modelled as rationals (`ℚ`): every arithmetic operation the
embedded code performs (addition, multiplication, division, `min`/`max`,
absolute value, `statistics.variance`) is exact on the inputs considered, so
`ℚ` is a faithful idealisation.  Python `dict`s with string keys are modelled
as association lists `List (String × ℚ)` looked up at the first matching key;
the operations below build lists whose keys stay unique exactly as the
`dict` operations of the source do.
-/

namespace PBD

/-- First-match lookup in an association list, the value semantics of a
Python `dict` whose entries are listed in insertion order. -/
def lookup? (m : List (String × ℚ)) (k : String) : Option ℚ :=
  match m with
  | [] => none
  | (k', v) :: rest => if k' = k then some v else lookup? rest k

/-- `dict.get(k, d)`: the stored value, or the default `d`. -/
def getD (m : List (String × ℚ)) (k : String) (d : ℚ) : ℚ :=
  (lookup? m k).getD d

/-- `k in dict`. -/
def containsKey (m : List (String × ℚ)) (k : String) : Bool :=
  match m with
  | [] => false
  | (k', _) :: rest => k' = k || containsKey rest k

/-- One assignment `m[k] = v` of a Python `dict`: overwrite every stored
entry for `k` (there is at most one), or append the new entry at the end. -/
def setKey (m : List (String × ℚ)) (k : String) (v : ℚ) : List (String × ℚ) :=
  if containsKey m k then m.map (fun p => if p.1 = k then (k, v) else p)
  else m ++ [(k, v)]

/-- `combined.update(analysis)`: assign every entry of `a` into `m`, in
order — later mappings overwrite earlier ones. -/
def dictUpdate (m a : List (String × ℚ)) : List (String × ℚ) :=
  a.foldl (fun acc kv => setKey acc kv.1 kv.2) m

/-- `max(0.0, min(1.0, x))`, the clamping to `[0,1]` used throughout
`analyzer.py`. -/
def clamp01 (x : ℚ) : ℚ := max 0 (min 1 x)

/-- `settings.voice_dimensions` (`utils/config.py`): the 14 canonical
dimensions. -/
def voice_dimensions : List String :=
  ["formality_level", "emotional_expressiveness", "technical_depth",
   "storytelling_style", "authority_tone", "empathy_level", "humor_usage",
   "vulnerability_comfort", "industry_jargon", "communication_pace",
   "explanation_style", "question_asking_tendency", "call_to_action_style",
   "personal_experience_sharing"]

/-- `VoiceAnalyzer._create_voice_signature(*analyses)`
(`voice_analysis/analyzer.py`, lines 363–394): merge all partial analyses
left to right with `dict.update`, read each of the 14 dimensions with its
documented default (`technical_depth`, `industry_jargon` and
`explanation_style` derive their defaults from `technical_density`,
`entity_density` and `avg_sentence_length`), then clamp everything to
`[0,1]`. -/
def create_voice_signature (analyses : List (List (String × ℚ))) :
    List (String × ℚ) :=
  let combined := analyses.foldl dictUpdate []
  let dimension_mappings : List (String × ℚ) :=
    [("formality_level", getD combined "formality_level" 0.5),
     ("emotional_expressiveness", getD combined "emotional_expressiveness" 0.3),
     ("technical_depth",
       getD combined "technical_depth" (getD combined "technical_density" 0 * 2)),
     ("storytelling_style", getD combined "storytelling_style" 0.3),
     ("authority_tone", getD combined "authority_tone" 0.4),
     ("empathy_level", getD combined "empathy_level" 0.4),
     ("humor_usage", getD combined "humor_usage" 0.1),
     ("vulnerability_comfort", getD combined "vulnerability_comfort" 0.3),
     ("industry_jargon",
       getD combined "industry_jargon" (getD combined "entity_density" 0 * 3)),
     ("communication_pace", getD combined "communication_pace" 0.5),
     ("explanation_style",
       getD combined "explanation_style" (getD combined "avg_sentence_length" 15 / 30)),
     ("question_asking_tendency", getD combined "question_asking_tendency" 0.2),
     ("call_to_action_style", getD combined "call_to_action_style" 0.3),
     ("personal_experience_sharing", getD combined "personal_experience_sharing" 0.4)]
  dimension_mappings.map (fun p => (p.1, clamp01 p.2))

theorem clamp01_nonneg (x : ℚ) : 0 ≤ clamp01 x := le_max_left 0 _

theorem clamp01_le_one (x : ℚ) : clamp01 x ≤ 1 := by
  unfold clamp01
  rcases le_total 1 x with h | h
  · simp [min_le_left]
  · simp [h]

/-- **C1.** Every voice signature produced by the fuser carries exactly the
14 canonical dimensions, in the canonical order, and every value lies in
`[0.0, 1.0]`. -/
theorem create_voice_signature_complete_and_bounded
    (analyses : List (List (String × ℚ))) :
    (create_voice_signature analyses).map Prod.fst = voice_dimensions ∧
      ∀ p ∈ create_voice_signature analyses, 0 ≤ p.2 ∧ p.2 ≤ 1 := by
  constructor
  · rfl
  · intro p hp
    simp only [create_voice_signature, List.map_cons, List.map_nil,
      List.mem_cons, List.not_mem_nil, or_false] at hp
    rcases hp with h | h | h | h | h | h | h | h | h | h | h | h | h | h <;>
      subst h <;> exact ⟨clamp01_nonneg _, clamp01_le_one _⟩

theorem lookup?_cons (k' k : String) (v : ℚ) (rest : List (String × ℚ)) :
    lookup? ((k', v) :: rest) k = if k' = k then some v else lookup? rest k := rfl

theorem getD_of_lookup {m : List (String × ℚ)} {k : String} {v : ℚ}
    (h : lookup? m k = some v) (d : ℚ) : getD m k d = v := by
  simp [getD, h]

theorem getD_of_not_lookup {m : List (String × ℚ)} {k : String}
    (h : lookup? m k = none) (d : ℚ) : getD m k d = d := by
  simp [getD, h]

/-- The 11 dimensions whose fuser default is a fixed constant, with that
constant (`analyzer.py`, lines 373–388). -/
def constant_defaults : List (String × ℚ) :=
  [("formality_level", 0.5), ("emotional_expressiveness", 0.3),
   ("storytelling_style", 0.3), ("authority_tone", 0.4),
   ("empathy_level", 0.4), ("humor_usage", 0.1),
   ("vulnerability_comfort", 0.3), ("communication_pace", 0.5),
   ("question_asking_tendency", 0.2), ("call_to_action_style", 0.3),
   ("personal_experience_sharing", 0.4)]

/-- **C2, counterexample.** The claim asserts that every dimension other
than `technical_depth` and `industry_jargon` falls back to a fixed
constant default when it is missing from the merged input.  It is false
for `explanation_style`: with `explanation_style` absent from the merged
mapping, the fused value is `avg_sentence_length / 30` — it is `1` when
the linguistic analysis reports `avg_sentence_length = 30` and `1/2` when
the inputs are all empty, so no single constant is its fallback. -/
theorem create_voice_signature_explanation_style_not_constant :
    ¬ ∃ c : ℚ,
      lookup? (create_voice_signature [[("avg_sentence_length", 30)]])
          "explanation_style" = some c ∧
      lookup? (create_voice_signature [[]]) "explanation_style" = some c := by
  rintro ⟨c, h1, h2⟩
  have e1 : lookup? (create_voice_signature [[("avg_sentence_length", 30)]])
      "explanation_style" = some 1 := by
    simp [create_voice_signature, dictUpdate, setKey, containsKey,
      lookup?, getD, clamp01]
  have e2 : lookup? (create_voice_signature [[]]) "explanation_style" =
      some (1 / 2) := by
    simp [create_voice_signature, dictUpdate, setKey, containsKey,
      lookup?, getD, clamp01]
    norm_num
  rw [e1] at h1
  rw [e2] at h2
  have hc1 : c = 1 := by injection h1.symm
  have hc2 : c = 1 / 2 := by injection h2.symm
  exact absurd (hc1.symm.trans hc2) (by norm_num)

/-- **C2, amended.** For each of the 14 canonical dimensions the fuser uses
the merged input value (clamped) when the dimension is present; otherwise
*three* dimensions fall back to a default derived from another signal —
`technical_depth` from `technical_density × 2`, `industry_jargon` from
`entity_density × 3`, and `explanation_style` from
`avg_sentence_length / 30` (with `15` as the nested default, i.e. `0.5`) —
while the remaining 11 dimensions fall back to their fixed constant
defaults; when the merged input is empty the result is exactly the
documented default signature. -/
theorem create_voice_signature_default_policy
    (analyses : List (List (String × ℚ))) :
    (∀ d ∈ voice_dimensions, ∀ v : ℚ,
        lookup? (analyses.foldl dictUpdate []) d = some v →
        lookup? (create_voice_signature analyses) d = some (clamp01 v)) ∧
    (∀ p ∈ constant_defaults,
        lookup? (analyses.foldl dictUpdate []) p.1 = none →
        lookup? (create_voice_signature analyses) p.1 = some p.2) ∧
    (lookup? (analyses.foldl dictUpdate []) "technical_depth" = none →
        lookup? (create_voice_signature analyses) "technical_depth" =
          some (clamp01 (getD (analyses.foldl dictUpdate []) "technical_density" 0 * 2))) ∧
    (lookup? (analyses.foldl dictUpdate []) "industry_jargon" = none →
        lookup? (create_voice_signature analyses) "industry_jargon" =
          some (clamp01 (getD (analyses.foldl dictUpdate []) "entity_density" 0 * 3))) ∧
    (lookup? (analyses.foldl dictUpdate []) "explanation_style" = none →
        lookup? (create_voice_signature analyses) "explanation_style" =
          some (clamp01 (getD (analyses.foldl dictUpdate []) "avg_sentence_length" 15 / 30))) ∧
    (analyses.foldl dictUpdate [] = [] →
        create_voice_signature analyses =
          [("formality_level", 0.5), ("emotional_expressiveness", 0.3),
           ("technical_depth", 0), ("storytelling_style", 0.3),
           ("authority_tone", 0.4), ("empathy_level", 0.4),
           ("humor_usage", 0.1), ("vulnerability_comfort", 0.3),
           ("industry_jargon", 0), ("communication_pace", 0.5),
           ("explanation_style", 0.5), ("question_asking_tendency", 0.2),
           ("call_to_action_style", 0.3),
           ("personal_experience_sharing", 0.4)]) := by
  refine ⟨?_, ?_, ?_, ?_, ?_, ?_⟩
  · intro d hd v hv
    fin_cases hd <;>
      simp [create_voice_signature, lookup?, getD_of_lookup hv]
  · intro p hp hnone
    fin_cases hp <;>
      simp_all [create_voice_signature, lookup?, getD_of_not_lookup, clamp01] <;>
      norm_num
  · intro hnone
    simp [create_voice_signature, lookup?, getD_of_not_lookup hnone]
  · intro hnone
    simp [create_voice_signature, lookup?, getD_of_not_lookup hnone]
  · intro hnone
    simp [create_voice_signature, lookup?, getD_of_not_lookup hnone]
  · intro hempty
    simp [create_voice_signature, hempty, lookup?, getD, clamp01]
    norm_num

/-- `statistics.variance(xs)`: the sample variance, sum of squared
deviations from the mean divided by `n − 1` (Python's `statistics.variance`
computes exactly this, with exact `Fraction` arithmetic). -/
def sample_variance (xs : List ℚ) : ℚ :=
  let n : ℚ := xs.length
  let m := xs.sum / n
  (xs.map (fun x => (x - m) ^ 2)).sum / (n - 1)

/-- `VoiceAnalyzer._calculate_confidence_score` (`analyzer.py`, lines
396–426): weighted sum of length, turns, completeness and consistency
factors, clamped to `[0,1]`.  The `try/except` of the source cannot fire on
this pure arithmetic (the `len > 1` guard protects the variance), so the
`0.5` fallback is unreachable and not modelled. -/
def calculate_confidence_score (voice_signature : List (String × ℚ))
    (text_length conversation_turns : Nat) : ℚ :=
  let length_factor := min ((text_length : ℚ) / 1000) 1
  let turns_factor := min ((conversation_turns : ℚ) / 5) 1
  let expected_dimensions : ℚ := voice_dimensions.length
  let actual_dimensions : ℚ := (voice_signature.filter (fun kv => 0 < kv.2)).length
  let completeness_factor := actual_dimensions / expected_dimensions
  let scores := voice_signature.map Prod.snd
  let score_variance := if 1 < scores.length then sample_variance scores else 0
  let consistency_factor := max 0.5 (1 - score_variance)
  max 0 (min 1 (length_factor * 0.3 + turns_factor * 0.2 +
    completeness_factor * 0.3 + consistency_factor * 0.2))

/-- **C3.** For every 14-entry voice signature, the confidence score is the
clamp to `[0,1]` of
`0.3·min(text_length/1000, 1) + 0.2·min(turn_count/5, 1) +
0.3·(count of dimensions with value > 0)/14 +
0.2·max(0.5, 1 − variance(all 14 scores))`, where `variance` is the sample
variance the source's `statistics.variance` computes. -/
theorem calculate_confidence_score_formula
    (sig : List (String × ℚ)) (text_length turn_count : Nat)
    (hlen : sig.length = 14) :
    calculate_confidence_score sig text_length turn_count =
      max 0 (min 1
        (0.3 * min ((text_length : ℚ) / 1000) 1 +
         0.2 * min ((turn_count : ℚ) / 5) 1 +
         0.3 * (((sig.filter (fun kv => 0 < kv.2)).length : ℚ) / 14) +
         0.2 * max 0.5 (1 - sample_variance (sig.map Prod.snd)))) := by
  have h14 : (sig.map Prod.snd).length = 14 := by simp [hlen]
  have hvd : voice_dimensions.length = 14 := rfl
  simp only [calculate_confidence_score, h14, hvd]
  rw [if_pos (by norm_num)]
  push_cast
  ring_nf

/-- Witness for **C3** at a concrete 14-dimension signature. -/
theorem calculate_confidence_score_formula_witness :
    calculate_confidence_score (voice_dimensions.map (fun d => (d, 0.5))) 500 2 =
      max 0 (min 1
        (0.3 * min ((500 : ℚ) / 1000) 1 +
         0.2 * min ((2 : ℚ) / 5) 1 +
         0.3 * ((((voice_dimensions.map (fun d => (d, (0.5 : ℚ)))).filter
            (fun kv => 0 < kv.2)).length : ℚ) / 14) +
         0.2 * max 0.5 (1 - sample_variance ((voice_dimensions.map
            (fun d => (d, (0.5 : ℚ)))).map Prod.snd)))) :=
  calculate_confidence_score_formula _ 500 2 (by rfl)

/-- `VoiceProfile.get_voice_dimension` (`models/voice_profile.py`, lines
41–43): `self.voice_signature.get(dimension, 0.0)`. -/
def get_voice_dimension (voice_signature : List (String × ℚ)) (dimension : String) : ℚ :=
  getD voice_signature dimension 0

/-- Result shape of `VoiceProfileComparison.compare_profiles`. -/
structure VoiceProfileComparison where
  overall_similarity : ℚ
  dimension_similarities : List (String × ℚ)
  differences : List (String × ℚ)
  recommendation : String

/-- `VoiceProfileComparison.compare_profiles` (`models/voice_profile.py`,
lines 117–158), on the two profiles' signatures.  The source iterates the
set `keys1 | keys2` in unspecified order; here the union is the
first-occurrence deduplication of the concatenated key lists — the
`overall_similarity` is order-independent. -/
def compare_profiles (sig1 sig2 : List (String × ℚ)) : VoiceProfileComparison :=
  let all_dimensions := (sig1.map Prod.fst ++ sig2.map Prod.fst).dedup
  let dimension_similarities := all_dimensions.map (fun d =>
    (d, 1 - |get_voice_dimension sig1 d - get_voice_dimension sig2 d|))
  let differences := all_dimensions.map (fun d =>
    (d, |get_voice_dimension sig1 d - get_voice_dimension sig2 d|))
  let similarities := dimension_similarities.map Prod.snd
  let overall_similarity :=
    if similarities.isEmpty then 0 else similarities.sum / similarities.length
  let recommendation :=
    if 0.8 < overall_similarity then
      "Very similar communication styles - content can be highly consistent"
    else if 0.6 < overall_similarity then
      "Similar styles with some variation - good for content diversity"
    else if 0.4 < overall_similarity then
      "Moderate differences - consider adapting content approach"
    else
      "Significant style differences - may need separate content strategies"
  { overall_similarity := overall_similarity,
    dimension_similarities := dimension_similarities,
    differences := differences,
    recommendation := recommendation }

theorem toFinset_dedup_list {α : Type _} [DecidableEq α] (l : List α) :
    l.dedup.toFinset = l.toFinset :=
  List.toFinset.ext (fun x => by simp)

/-- **C4.** Profile comparison works over the union of the dimensions
present in either signature, scores a missing dimension as `0.0`, uses
per-dimension similarity `1 − |scoreA − scoreB|`, and returns as
`overall_similarity` the arithmetic mean of the per-dimension
similarities. -/
theorem compare_profiles_mean_over_union (sig1 sig2 : List (String × ℚ))
    (h : sig1.map Prod.fst ++ sig2.map Prod.fst ≠ []) :
    (compare_profiles sig1 sig2).overall_similarity =
      (∑ d ∈ (sig1.map Prod.fst).toFinset ∪ (sig2.map Prod.fst).toFinset,
        (1 - |getD sig1 d 0 - getD sig2 d 0|)) /
      ((sig1.map Prod.fst).toFinset ∪ (sig2.map Prod.fst).toFinset).card := by
  set L := sig1.map Prod.fst ++ sig2.map Prod.fst with hL
  have hdedup : L.dedup ≠ [] := fun hnil => h ((List.dedup_eq_nil L).mp hnil)
  have hsum : L.dedup.toFinset.sum
      (fun d => 1 - |getD sig1 d 0 - getD sig2 d 0|) =
      (L.dedup.map (fun d => 1 - |getD sig1 d 0 - getD sig2 d 0|)).sum :=
    List.sum_toFinset _ (List.nodup_dedup L)
  have hfin : L.dedup.toFinset =
      (sig1.map Prod.fst).toFinset ∪ (sig2.map Prod.fst).toFinset := by
    rw [toFinset_dedup_list, hL, List.toFinset_append]
  rw [← hfin, hsum, List.toFinset_card_of_nodup (List.nodup_dedup L)]
  simp only [compare_profiles, get_voice_dimension, List.map_map]
  rw [if_neg (by simp only [List.isEmpty_iff, List.map_eq_nil_iff]; exact hdedup)]
  have hcomp : (Prod.snd ∘ fun d => (d, 1 - |getD sig1 d 0 - getD sig2 d 0|)) =
      fun d => 1 - |getD sig1 d 0 - getD sig2 d 0| := funext fun d => rfl
  rw [hcomp, List.length_map]

/-- Witness for **C4** on concrete signatures with disjoint dimension
sets. -/
theorem compare_profiles_mean_over_union_witness :
    (compare_profiles [("formality_level", 0.5)] [("humor_usage", 1)]).overall_similarity =
      (∑ d ∈ ([("formality_level", (0.5 : ℚ))].map Prod.fst).toFinset ∪
          ([("humor_usage", (1 : ℚ))].map Prod.fst).toFinset,
        (1 - |getD [("formality_level", 0.5)] d 0 - getD [("humor_usage", 1)] d 0|)) /
      (([("formality_level", (0.5 : ℚ))].map Prod.fst).toFinset ∪
          ([("humor_usage", (1 : ℚ))].map Prod.fst).toFinset).card :=
  compare_profiles_mean_over_union _ _ (by simp)

/-- **C5.** Comparing a (nonempty — every voice signature carries its 14
dimensions) signature with itself yields `overall_similarity` exactly 1. -/
theorem compare_profiles_self (sig : List (String × ℚ)) (h : sig ≠ []) :
    (compare_profiles sig sig).overall_similarity = 1 := by
  have hne : (sig.map Prod.fst ++ sig.map Prod.fst).dedup ≠ [] := by
    intro hnil
    rcases (List.dedup_eq_nil _).mp hnil with hcat
    rcases List.append_eq_nil.mp hcat with ⟨h1, _⟩
    exact h (List.map_eq_nil_iff.mp h1)
  have key : ∀ l : List String,
      (l.map (fun d => 1 - |getD sig d 0 - getD sig d 0|)).sum = (l.length : ℚ) := by
    intro l
    induction l with
    | nil => simp
    | cons a t ih =>
      rw [List.map_cons, List.sum_cons, ih, List.length_cons, sub_self,
        abs_zero, sub_zero]
      push_cast
      ring
  simp only [compare_profiles, get_voice_dimension, List.map_map]
  rw [if_neg (by simpa [List.isEmpty_iff] using hne)]
  have hcomp : (Prod.snd ∘ fun d => (d, 1 - |getD sig d 0 - getD sig d 0|)) =
      fun d => 1 - |getD sig d 0 - getD sig d 0| := funext fun d => rfl
  rw [hcomp, List.length_map, key]
  have hpos : 0 < (sig.map Prod.fst ++ sig.map Prod.fst).dedup.length :=
    List.length_pos.mpr hne
  have hq : ((sig.map Prod.fst ++ sig.map Prod.fst).dedup.length : ℚ) ≠ 0 := by
    exact_mod_cast hpos.ne'
  field_simp

/-- Witness for **C5** at a concrete signature. -/
theorem compare_profiles_self_witness :
    (compare_profiles [("formality_level", 0.5), ("humor_usage", 0.1)]
      [("formality_level", 0.5), ("humor_usage", 0.1)]).overall_similarity = 1 :=
  compare_profiles_self _ (by simp)

/-- The template fields `get_template_for_voice_profile` reads
(`content_generation/templates.py`): each default template is a dict with
`name`, `content_type` and `use_case` (among others). -/
structure Template where
  name : String
  content_type : String
  use_case : String

/-- `p` occurs as a contiguous substring of `s` (Python's `in` on
strings), on the character lists. -/
def containsSub (s p : List Char) : Bool :=
  match s with
  | [] => p.isEmpty
  | _ :: rest => p.isPrefixOf s || containsSub rest p

/-- The score the selector gives one candidate template
(`templates.py`, lines 430–454): an `if/elif` base score from use-case
alignment, plus 1.5 bonuses for `"story"`/`"insight"`/`"personal"`
appearing in the lowercased template name. -/
def score_template (voice_signature : List (String × ℚ)) (t : Template) : ℚ :=
  let storytelling_score := getD voice_signature "storytelling_style" 0.3
  let authority_score := getD voice_signature "authority_tone" 0.4
  let personal_score := getD voice_signature "personal_experience_sharing" 0.4
  let technical_score := getD voice_signature "technical_depth" 0.3
  let base : ℚ :=
    if t.use_case = "personal_story" ∧ 0.5 < storytelling_score then 3
    else if t.use_case = "thought_leadership" ∧ 0.5 < authority_score then 3
    else if t.use_case = "personal_update" ∧ 0.5 < personal_score then 2
    else if t.use_case = "professional_advice" ∧ 0.4 < technical_score then 2
    else 1
  let b1 : ℚ :=
    if containsSub t.name.toLower.data "story".data ∧ 0.4 < storytelling_score
    then 1.5 else 0
  let b2 : ℚ :=
    if containsSub t.name.toLower.data "insight".data ∧ 0.4 < authority_score
    then 1.5 else 0
  let b3 : ℚ :=
    if containsSub t.name.toLower.data "personal".data ∧ 0.4 < personal_score
    then 1.5 else 0
  base + b1 + b2 + b3

/-- `TemplateManager.get_template_for_voice_profile`
(`templates.py`, lines 411–458), with the template list (the source's
`self._get_default_templates()`, a fixed nonempty list) passed explicitly:
filter to the requested content type; if nothing matches return the first
template of the list (`templates[0]`, modelled as `none` on the empty list
where the source would raise `IndexError`); otherwise return the matching
template with the highest score — Python's `max` keeps the first of equal
maxima, modelled by replacing the running best only on strictly greater
score. -/
def get_template_for_voice_profile (templates : List Template)
    (voice_signature : List (String × ℚ)) (content_type : String) :
    Option Template :=
  match templates.filter (fun t => t.content_type = content_type) with
  | [] => templates.head?
  | m :: ms => some (ms.foldl (fun best t =>
      if score_template voice_signature best < score_template voice_signature t
      then t else best) m)

theorem foldl_best_mem {α : Type _} (f : α → ℚ) (m : α) (ms : List α) :
    ms.foldl (fun best t => if f best < f t then t else best) m ∈ m :: ms := by
  induction ms generalizing m with
  | nil => simp
  | cons t ts ih =>
    rw [List.foldl_cons]
    by_cases hc : f m < f t
    · rw [if_pos hc]
      exact List.mem_cons_of_mem m (ih t)
    · rw [if_neg hc]
      rcases List.mem_cons.mp (ih m) with h | h
      · rw [h]
        exact List.mem_cons_self m (t :: ts)
      · exact List.mem_cons_of_mem m (List.mem_cons_of_mem t h)

/-- **C6.** Whenever some available template has the requested content
type, the selector returns a template of that content type; when none
does, it returns the first template of the (nonempty) list rather than
failing. -/
theorem get_template_for_voice_profile_content_type
    (templates : List Template) (voice_signature : List (String × ℚ))
    (content_type : String) (hne : templates ≠ []) :
    ((∃ t ∈ templates, t.content_type = content_type) →
      ∃ t, get_template_for_voice_profile templates voice_signature content_type =
          some t ∧ t.content_type = content_type) ∧
    ((∀ t ∈ templates, t.content_type ≠ content_type) →
      get_template_for_voice_profile templates voice_signature content_type =
        templates.head? ∧
      ∃ t, get_template_for_voice_profile templates voice_signature content_type =
        some t) := by
  constructor
  · rintro ⟨t0, ht0, hct⟩
    have hmem : t0 ∈ templates.filter (fun t => t.content_type = content_type) :=
      List.mem_filter.mpr ⟨ht0, by simp [hct]⟩
    rcases hfil : templates.filter (fun t => t.content_type = content_type) with
      _ | ⟨m, ms⟩
    · rw [hfil] at hmem
      exact absurd hmem (List.not_mem_nil t0)
    · refine ⟨ms.foldl (fun best t =>
        if score_template voice_signature best < score_template voice_signature t
        then t else best) m, ?_, ?_⟩
      · unfold get_template_for_voice_profile
        rw [hfil]
      · have hbest := foldl_best_mem (score_template voice_signature) m ms
        have hin : (ms.foldl (fun best t =>
            if score_template voice_signature best < score_template voice_signature t
            then t else best) m) ∈
            templates.filter (fun t => t.content_type = content_type) := by
          rw [hfil]; exact hbest
        have := List.mem_filter.mp hin
        simpa using this.2
  · intro hnone
    have hfil : templates.filter (fun t => t.content_type = content_type) = [] := by
      rw [List.filter_eq_nil_iff]
      intro t ht
      simp [hnone t ht]
    have hval : get_template_for_voice_profile templates voice_signature content_type =
        templates.head? := by
      unfold get_template_for_voice_profile
      rw [hfil]
    refine ⟨hval, ?_⟩
    rcases templates with _ | ⟨t0, ts⟩
    · exact absurd rfl hne
    · exact ⟨t0, hval⟩

/-- Witness for **C6** at a concrete template list, signature and request. -/
theorem get_template_for_voice_profile_content_type_witness :
    (∃ t, get_template_for_voice_profile
        [⟨"Professional Insight", "post", "thought_leadership"⟩,
         ⟨"Personal Story", "post", "personal_story"⟩] [] "post" =
        some t ∧ t.content_type = "post") ∧
    (get_template_for_voice_profile
        [⟨"Professional Insight", "post", "thought_leadership"⟩,
         ⟨"Personal Story", "post", "personal_story"⟩] [] "article" =
        ([⟨"Professional Insight", "post", "thought_leadership"⟩,
          ⟨"Personal Story", "post", "personal_story"⟩] :
          List Template).head? ∧
     ∃ t, get_template_for_voice_profile
        [⟨"Professional Insight", "post", "thought_leadership"⟩,
         ⟨"Personal Story", "post", "personal_story"⟩] [] "article" = some t) :=
  ⟨(get_template_for_voice_profile_content_type
      [⟨"Professional Insight", "post", "thought_leadership"⟩,
       ⟨"Personal Story", "post", "personal_story"⟩] [] "post" (by simp)).1
    ⟨⟨"Professional Insight", "post", "thought_leadership"⟩, by simp, rfl⟩,
   (get_template_for_voice_profile_content_type
      [⟨"Professional Insight", "post", "thought_leadership"⟩,
       ⟨"Personal Story", "post", "personal_story"⟩] [] "article" (by simp)).2
    (by decide)⟩

/-- `settings.min_transcription_length` (`utils/config.py`, line 38):
default 50. -/
def min_transcription_length : Nat := 50

/-- One element of `conversation_data`: the fields `analyze_voice`
reads. -/
structure ConversationItem where
  transcription : String

/-- Python's `str.strip()`: drop whitespace from both ends. -/
def pyStrip (s : String) : String :=
  String.mk (((s.data.dropWhile Char.isWhitespace).reverse.dropWhile
    Char.isWhitespace).reverse)

/-- `VoiceAnalyzer._combine_transcriptions` (`analyzer.py`, lines
116–123): strip each transcription, keep the nonempty ones, join with a
single space. -/
def combine_transcriptions (conversation_data : List ConversationItem) : String :=
  " ".intercalate ((conversation_data.map (fun item => pyStrip item.transcription)).filter
    (fun t => t ≠ ""))

/-- The error classes `analyze_voice` can surface: the `IndexError` the
pre-`try` logging call raises via `conversation_data[0]` on an empty
conversation list (`analyzer.py`, lines 58–62), and the insufficient-input
exception of the length check. -/
inductive AnalysisError where
  | indexError
  | insufficientInput (chars : Nat)
deriving DecidableEq

/-- The success payload of `analyze_voice`. -/
structure VoiceAnalysisResult where
  voice_signature : List (String × ℚ)
  confidence_score : ℚ

/-- `VoiceAnalyzer.analyze_voice` (`analyzer.py`, lines 45–114) with the
four analysis passes (linguistic, style, emotional, AI-enhanced) passed as
oracles from transcript text to partial mappings.  Before its `try:` block
the method calls `self.log_voice_analysis_start(user_id,
conversation_data[0].get("metadata", {}).get("conversation_id",
"unknown"), len(conversation_data))` (lines 58–62); on an empty
conversation list the `conversation_data[0]` argument raises `IndexError`
there, before any length check — modelled by the `[]` branch.  Otherwise:
combine the transcriptions, refuse with `InsufficientInput` when the
combined text is shorter than `min_transcription_length`, else fuse the
four analyses into a signature and score it. -/
def analyze_voice
    (linguistic style emotional ai : String → List (String × ℚ))
    (conversation_data : List ConversationItem) :
    Except AnalysisError VoiceAnalysisResult :=
  match conversation_data with
  | [] => .error .indexError
  | _ :: _ =>
    let full_text := combine_transcriptions conversation_data
    if full_text.length < min_transcription_length then
      .error (.insufficientInput full_text.length)
    else
      let voice_signature := create_voice_signature
        [linguistic full_text, style full_text, emotional full_text, ai full_text]
      .ok { voice_signature := voice_signature,
            confidence_score := calculate_confidence_score voice_signature
              full_text.length conversation_data.length }

/-- **C8.** Whenever a (nonempty — an empty conversation list never gets
past the pre-`try` logging call, whose `conversation_data[0]` raises
`IndexError` first) conversation's combined transcript is shorter than
`min_transcription_length`, `analyze_voice` reports `InsufficientInput`
to the caller — no voice signature or confidence score is produced, so
fusion is never attempted. -/
theorem analyze_voice_insufficient_input
    (linguistic style emotional ai : String → List (String × ℚ))
    (conversation_data : List ConversationItem)
    (hne : conversation_data ≠ [])
    (hshort : (combine_transcriptions conversation_data).length <
      min_transcription_length) :
    analyze_voice linguistic style emotional ai conversation_data =
      .error (.insufficientInput
        (combine_transcriptions conversation_data).length) := by
  rcases conversation_data with _ | ⟨item, rest⟩
  · exact absurd rfl hne
  · unfold analyze_voice
    rw [if_pos hshort]

/-- Witness for **C8**: one conversation turn carrying the empty
transcription (the spec's `text=""` scenario; combined text `""`). -/
theorem analyze_voice_insufficient_input_witness :
    analyze_voice (fun _ => []) (fun _ => []) (fun _ => []) (fun _ => [])
        [⟨""⟩] =
      .error (.insufficientInput (combine_transcriptions [⟨""⟩]).length) :=
  analyze_voice_insufficient_input _ _ _ _ [⟨""⟩] (by simp) (by decide)

/-- `INDUSTRY_VOICE_ADJUSTMENTS` (`utils/config.py`, lines 140–166). -/
def INDUSTRY_VOICE_ADJUSTMENTS : List (String × List (String × ℚ)) :=
  [("technology",
    [("technical_depth", 1.2), ("formality_level", 0.9), ("industry_jargon", 1.3)]),
   ("finance",
    [("formality_level", 1.3), ("authority_tone", 1.2), ("technical_depth", 1.1)]),
   ("healthcare",
    [("empathy_level", 1.4), ("technical_depth", 1.2), ("authority_tone", 1.1)]),
   ("marketing",
    [("emotional_expressiveness", 1.3), ("storytelling_style", 1.2),
     ("call_to_action_style", 1.4)]),
   ("consulting",
    [("authority_tone", 1.2), ("explanation_style", 1.3),
     ("question_asking_tendency", 1.2)])]

/-- Lookup in the adjustment table (`industry in INDUSTRY_VOICE_ADJUSTMENTS`
and `INDUSTRY_VOICE_ADJUSTMENTS[industry]`). -/
def lookupAdjustments (industry : String) : Option (List (String × ℚ)) :=
  match INDUSTRY_VOICE_ADJUSTMENTS.find? (fun p => p.1 = industry) with
  | some p => some p.2
  | none => none

/-- `VoiceAnalyzer.apply_industry_adjustments` (`analyzer.py`, lines
428–442): unknown industry returns the signature unchanged; otherwise each
listed dimension present in the signature is multiplied by its factor and
clamped to `[0,1]`. -/
def adjustStep (s : List (String × ℚ)) (dm : String × ℚ) : List (String × ℚ) :=
  if containsKey s dm.1 then setKey s dm.1 (clamp01 (getD s dm.1 0 * dm.2)) else s

/-- `VoiceAnalyzer.apply_industry_adjustments` (`analyzer.py`, lines
428–442): unknown industry returns the signature unchanged; otherwise each
listed dimension present in the signature is multiplied by its factor and
clamped to `[0,1]`. -/
def apply_industry_adjustments (voice_signature : List (String × ℚ))
    (industry : String) : List (String × ℚ) :=
  match lookupAdjustments industry with
  | none => voice_signature
  | some adjustments => adjustments.foldl adjustStep voice_signature

theorem setKey_map_fst {s : List (String × ℚ)} {k : String}
    (h : containsKey s k = true) (v : ℚ) :
    (setKey s k v).map Prod.fst = s.map Prod.fst := by
  unfold setKey
  rw [if_pos h, List.map_map]
  apply List.map_congr_left
  intro p _
  by_cases hp : p.1 = k
  · simp [hp, Function.comp]
  · simp [hp, Function.comp]

theorem lookup?_cons' (p : String × ℚ) (rest : List (String × ℚ)) (k : String) :
    lookup? (p :: rest) k = if p.1 = k then some p.2 else lookup? rest k := by
  rcases p with ⟨a, b⟩
  rfl

theorem containsKey_cons (p : String × ℚ) (rest : List (String × ℚ)) (k : String) :
    containsKey (p :: rest) k = (decide (p.1 = k) || containsKey rest k) := by
  rcases p with ⟨a, b⟩
  rfl

theorem lookup?_setKey_same {s : List (String × ℚ)} {k : String}
    (h : containsKey s k = true) (v : ℚ) :
    lookup? (setKey s k v) k = some v := by
  unfold setKey
  rw [if_pos h]
  induction s with
  | nil => simp [containsKey] at h
  | cons p rest ih =>
    rw [List.map_cons]
    by_cases hp : p.1 = k
    · rw [if_pos hp, lookup?_cons', if_pos rfl]
    · rw [if_neg hp, lookup?_cons', if_neg hp]
      apply ih
      rw [containsKey_cons] at h
      simpa [hp] using h

theorem lookup?_setKey_other (s : List (String × ℚ)) (k k' : String)
    (hne : k' ≠ k) (v : ℚ) :
    lookup? (setKey s k v) k' = lookup? s k' := by
  unfold setKey
  by_cases h : containsKey s k = true
  · rw [if_pos h]
    clear h
    induction s with
    | nil => rfl
    | cons p rest ih =>
      rw [List.map_cons]
      by_cases hp : p.1 = k
      · rw [if_pos hp, lookup?_cons', lookup?_cons',
          if_neg (fun hc : k = k' => Ne.symm hne hc),
          if_neg (fun hc : p.1 = k' => Ne.symm hne (hp.symm.trans hc)), ih]
      · rw [if_neg hp, lookup?_cons', lookup?_cons', ih]
  · rw [if_neg h]
    clear h
    induction s with
    | nil =>
      rw [List.nil_append, lookup?_cons',
        if_neg (fun hc : k = k' => Ne.symm hne hc)]
    | cons p rest ih =>
      rw [List.cons_append, lookup?_cons', lookup?_cons', ih]

theorem containsKey_eq_mem_fst (s : List (String × ℚ)) (k : String) :
    containsKey s k = true ↔ k ∈ s.map Prod.fst := by
  induction s with
  | nil => simp [containsKey]
  | cons p rest ih =>
    rw [containsKey_cons, List.map_cons]
    simp only [Bool.or_eq_true, decide_eq_true_eq, List.mem_cons, ih]
    constructor
    · rintro (h | h)
      · exact Or.inl h.symm
      · exact Or.inr h
    · rintro (h | h)
      · exact Or.inl h.symm
      · exact Or.inr h

theorem adjustStep_map_fst (s : List (String × ℚ)) (dm : String × ℚ) :
    (adjustStep s dm).map Prod.fst = s.map Prod.fst := by
  unfold adjustStep
  by_cases h : containsKey s dm.1 = true
  · rw [if_pos h, setKey_map_fst h]
  · rw [if_neg h]

theorem adjustStep_containsKey (s : List (String × ℚ)) (dm : String × ℚ)
    (d : String) : containsKey (adjustStep s dm) d = containsKey s d := by
  rcases hc : containsKey s d with _ | _
  · rcases hc' : containsKey (adjustStep s dm) d with _ | _
    · rfl
    · have hmem := (containsKey_eq_mem_fst _ d).mp hc'
      rw [adjustStep_map_fst] at hmem
      have htrue := (containsKey_eq_mem_fst s d).mpr hmem
      rw [hc] at htrue
      exact absurd htrue Bool.false_ne_true
  · have := (containsKey_eq_mem_fst s d).mp hc
    rw [← adjustStep_map_fst s dm] at this
    exact (containsKey_eq_mem_fst _ d).mpr this

theorem adjustStep_lookup_other (s : List (String × ℚ)) (dm : String × ℚ)
    (d : String) (hne : d ≠ dm.1) :
    lookup? (adjustStep s dm) d = lookup? s d := by
  unfold adjustStep
  by_cases h : containsKey s dm.1 = true
  · rw [if_pos h, lookup?_setKey_other _ _ _ hne]
  · rw [if_neg h]

theorem adjustStep_lookup_same (s : List (String × ℚ)) (dm : String × ℚ)
    (h : containsKey s dm.1 = true) :
    lookup? (adjustStep s dm) dm.1 = some (clamp01 (getD s dm.1 0 * dm.2)) := by
  unfold adjustStep
  rw [if_pos h, lookup?_setKey_same h]

theorem foldl_adjustStep_map_fst (adj : List (String × ℚ))
    (s : List (String × ℚ)) :
    (adj.foldl adjustStep s).map Prod.fst = s.map Prod.fst := by
  induction adj generalizing s with
  | nil => rfl
  | cons dm rest ih => rw [List.foldl_cons, ih, adjustStep_map_fst]

theorem foldl_adjustStep_lookup_not_mem (adj : List (String × ℚ))
    (s : List (String × ℚ)) (d : String) (hd : d ∉ adj.map Prod.fst) :
    lookup? (adj.foldl adjustStep s) d = lookup? s d := by
  induction adj generalizing s with
  | nil => rfl
  | cons dm rest ih =>
    simp only [List.map_cons, List.mem_cons, not_or] at hd
    rw [List.foldl_cons, ih _ hd.2, adjustStep_lookup_other _ _ _ hd.1]

theorem foldl_adjustStep_lookup_mem (adj : List (String × ℚ))
    (hnodup : (adj.map Prod.fst).Nodup) (s : List (String × ℚ))
    (dm : String × ℚ) (hmem : dm ∈ adj) (hck : containsKey s dm.1 = true) :
    lookup? (adj.foldl adjustStep s) dm.1 =
      some (clamp01 (getD s dm.1 0 * dm.2)) := by
  induction adj generalizing s with
  | nil => exact absurd hmem (List.not_mem_nil dm)
  | cons a rest ih =>
    rw [List.map_cons, List.nodup_cons] at hnodup
    rcases List.mem_cons.mp hmem with heq | htail
    · subst heq
      rw [List.foldl_cons,
        foldl_adjustStep_lookup_not_mem rest _ dm.1 hnodup.1,
        adjustStep_lookup_same s dm hck]
    · have hne : dm.1 ≠ a.1 := by
        intro hc
        exact hnodup.1 (hc ▸ List.mem_map_of_mem Prod.fst htail)
      rw [List.foldl_cons]
      have hck' : containsKey (adjustStep s a) dm.1 = true := by
        rw [adjustStep_containsKey]; exact hck
      rw [ih hnodup.2 _ htail hck', getD, adjustStep_lookup_other _ _ _ hne, ← getD]

theorem setKey_bounds {s : List (String × ℚ)} {k : String} {v : ℚ}
    (hs : ∀ p ∈ s, 0 ≤ p.2 ∧ p.2 ≤ 1) (hv : 0 ≤ v ∧ v ≤ 1) :
    ∀ p ∈ setKey s k v, 0 ≤ p.2 ∧ p.2 ≤ 1 := by
  intro p hp
  unfold setKey at hp
  by_cases h : containsKey s k = true
  · rw [if_pos h] at hp
    rcases List.mem_map.mp hp with ⟨q, hq, hrepl⟩
    by_cases hqk : q.1 = k
    · rw [if_pos hqk] at hrepl
      rw [← hrepl]
      exact hv
    · rw [if_neg hqk] at hrepl
      rw [← hrepl]
      exact hs q hq
  · rw [if_neg h] at hp
    rcases List.mem_append.mp hp with hq | hq
    · exact hs p hq
    · rcases List.mem_singleton.mp hq with rfl
      exact hv

theorem foldl_adjustStep_bounds (adj : List (String × ℚ))
    (s : List (String × ℚ)) (hs : ∀ p ∈ s, 0 ≤ p.2 ∧ p.2 ≤ 1) :
    ∀ p ∈ adj.foldl adjustStep s, 0 ≤ p.2 ∧ p.2 ≤ 1 := by
  induction adj generalizing s with
  | nil => exact hs
  | cons dm rest ih =>
    rw [List.foldl_cons]
    apply ih
    intro p hp
    unfold adjustStep at hp
    by_cases h : containsKey s dm.1 = true
    · rw [if_pos h] at hp
      exact setKey_bounds hs ⟨clamp01_nonneg _, clamp01_le_one _⟩ p hp
    · rw [if_neg h] at hp
      exact hs p hp

theorem lookupAdjustments_nodup {industry : String}
    {adj : List (String × ℚ)} (h : lookupAdjustments industry = some adj) :
    (adj.map Prod.fst).Nodup := by
  unfold lookupAdjustments at h
  rcases hfind : INDUSTRY_VOICE_ADJUSTMENTS.find? (fun p => p.1 = industry) with
    _ | ⟨p⟩
  · rw [hfind] at h
    exact absurd h (by simp)
  · rw [hfind] at h
    have hp : p ∈ INDUSTRY_VOICE_ADJUSTMENTS := List.mem_of_find?_eq_some hfind
    have hadj : p.2 = adj := by injection h
    subst hadj
    fin_cases hp <;> decide

/-- **C10.** `apply_industry_adjustments` preserves the dimension keys of
its input exactly; an industry with no entry in the adjustment table
leaves the signature unchanged; for a known industry every listed
dimension present in the signature is multiplied by its factor and clamped
to `[0,1]` while every unlisted dimension keeps its original value; and
the all-values-in-`[0,1]` invariant is preserved. -/
theorem apply_industry_adjustments_spec (voice_signature : List (String × ℚ))
    (industry : String) :
    ((apply_industry_adjustments voice_signature industry).map Prod.fst =
      voice_signature.map Prod.fst) ∧
    (lookupAdjustments industry = none →
      apply_industry_adjustments voice_signature industry = voice_signature) ∧
    (∀ adj, lookupAdjustments industry = some adj →
      (∀ dm ∈ adj, containsKey voice_signature dm.1 = true →
        lookup? (apply_industry_adjustments voice_signature industry) dm.1 =
          some (clamp01 (getD voice_signature dm.1 0 * dm.2))) ∧
      (∀ d, d ∉ adj.map Prod.fst →
        lookup? (apply_industry_adjustments voice_signature industry) d =
          lookup? voice_signature d)) ∧
    ((∀ p ∈ voice_signature, 0 ≤ p.2 ∧ p.2 ≤ 1) →
      ∀ p ∈ apply_industry_adjustments voice_signature industry,
        0 ≤ p.2 ∧ p.2 ≤ 1) := by
  refine ⟨?_, ?_, ?_, ?_⟩
  · unfold apply_industry_adjustments
    rcases lookupAdjustments industry with _ | adj
    · rfl
    · exact foldl_adjustStep_map_fst adj voice_signature
  · intro hnone
    unfold apply_industry_adjustments
    rw [hnone]
  · intro adj hadj
    constructor
    · intro dm hdm hck
      unfold apply_industry_adjustments
      rw [hadj]
      exact foldl_adjustStep_lookup_mem adj (lookupAdjustments_nodup hadj) _ dm hdm hck
    · intro d hd
      unfold apply_industry_adjustments
      rw [hadj]
      exact foldl_adjustStep_lookup_not_mem adj _ d hd
  · intro hb
    unfold apply_industry_adjustments
    rcases lookupAdjustments industry with _ | adj
    · exact hb
    · exact foldl_adjustStep_bounds adj _ hb

/-- A `\w` character of Python's `re` (ASCII range, which is all the
hashtag sets use): letters, digits or underscore. -/
def isWordChar (c : Char) : Bool := c.isAlphanum || c = '_'

/-- Flush the pending match of the hashtag scanner: in state `some ws` the
scanner has seen `'#'` followed by the word characters `ws` (reversed);
a nonempty run is a finished `#\w+` match. -/
def flushTag : Option (List Char) → List (List Char)
  | none => []
  | some ws => if ws.isEmpty then [] else ['#' :: ws.reverse]

/-- Left-to-right scanner for `re.findall(r'#\w+', content)`
(`generator.py`, line 463), as an automaton over the characters: state
`none` = outside a match, state `some ws` = inside a candidate match begun
by `'#'` with word characters `ws` collected so far (reversed).  Matches
are non-overlapping, greedy and reported left to right, exactly as
`re.findall` reports them. -/
def scanTagsAux : Option (List Char) → List Char → List (List Char)
  | acc, [] => flushTag acc
  | some ws, c :: rest =>
      if isWordChar c then scanTagsAux (some (c :: ws)) rest
      else flushTag (some ws) ++
        scanTagsAux (if c = '#' then some [] else none) rest
  | none, c :: rest => scanTagsAux (if c = '#' then some [] else none) rest

/-- `re.findall(r'#\w+', content)`. -/
def scanTags (content : List Char) : List (List Char) := scanTagsAux none content

/-- The `industry_hashtags` table of `ContentGenerator._optimize_hashtags`
(`generator.py`, lines 454–460) with its `.get(industry.lower(), default)`
lookup (line 467). -/
def industry_hashtags (industry : List Char) : List (List Char) :=
  let low := industry.map Char.toLower
  if low = "technology".data then
    ["#TechLeadership".data, "#Innovation".data, "#DigitalTransformation".data,
     "#TechTrends".data]
  else if low = "finance".data then
    ["#FinTech".data, "#FinancialServices".data, "#InvestmentStrategy".data,
     "#EconomicInsights".data]
  else if low = "healthcare".data then
    ["#HealthcareInnovation".data, "#MedicalLeadership".data, "#PatientCare".data,
     "#HealthTech".data]
  else if low = "marketing".data then
    ["#MarketingStrategy".data, "#DigitalMarketing".data, "#BrandBuilding".data,
     "#MarketingInsights".data]
  else if low = "consulting".data then
    ["#BusinessStrategy".data, "#Consulting".data, "#Leadership".data,
     "#BusinessTransformation".data]
  else
    ["#Leadership".data, "#ProfessionalGrowth".data, "#BusinessInsights".data]

/-- `" ".join(tags)`. -/
def joinSpace : List (List Char) → List Char
  | [] => []
  | [t] => t
  | t :: ts => t ++ ' ' :: joinSpace ts

/-- `ContentGenerator._optimize_hashtags(content, industry)`
(`generator.py`, lines 451–478): when the content holds fewer than 3
hashtags, append (after a blank line) the industry's suggested hashtags
that are not already present, capped at `5 − existing` additions; content
with 3 or more hashtags is returned unchanged. -/
def optimize_hashtags (content industry : List Char) : List Char :=
  let existing_hashtags := scanTags content
  if existing_hashtags.length < 3 then
    let suggested_hashtags := industry_hashtags industry
    let new_hashtags :=
      (suggested_hashtags.filter (fun h => decide (h ∉ existing_hashtags))).take
        (5 - existing_hashtags.length)
    if new_hashtags.isEmpty then content
    else content ++ '\n' :: '\n' :: joinSpace new_hashtags
  else content

/-- The shape of one `#\w+` match: a `'#'` followed by a nonempty run of
word characters. -/
def isTagShape (t : List Char) : Bool :=
  match t with
  | c :: w => c = '#' && !w.isEmpty && w.all isWordChar
  | [] => false

theorem scanTagsAux_append (c : Char) (hw : isWordChar c = false)
    (hh : c ≠ '#') (b : List Char) :
    ∀ (a : List Char) (acc : Option (List Char)),
      scanTagsAux acc (a ++ c :: b) = scanTagsAux acc a ++ scanTagsAux none b := by
  intro a
  induction a with
  | nil =>
    intro acc
    rcases acc with _ | ws
    · simp [scanTagsAux, flushTag, hh]
    · simp [scanTagsAux, flushTag, hw, hh]
  | cons x xs ih =>
    intro acc
    rcases acc with _ | ws
    · simp only [List.cons_append, scanTagsAux]
      exact ih _
    · by_cases hx : isWordChar x
      · simp only [List.cons_append, scanTagsAux, hx, if_true]
        exact ih _
      · simp only [List.cons_append, scanTagsAux, hx, Bool.false_eq_true, if_false,
          List.append_eq]
        rw [ih _, List.append_assoc]

theorem scanTagsAux_words (w : List Char) (hw : w.all isWordChar = true) :
    ∀ acc, scanTagsAux (some acc) w = flushTag (some (w.reverse ++ acc)) := by
  induction w with
  | nil =>
    intro acc
    simp [scanTagsAux]
  | cons c cs ih =>
    intro acc
    rw [List.all_cons, Bool.and_eq_true] at hw
    simp only [scanTagsAux, hw.1, if_true]
    rw [ih hw.2 (c :: acc), List.reverse_cons, List.append_assoc]
    rfl

theorem scanTags_append (c : Char) (hw : isWordChar c = false)
    (hh : c ≠ '#') (a b : List Char) :
    scanTags (a ++ c :: b) = scanTags a ++ scanTags b :=
  scanTagsAux_append c hw hh b a none

theorem scanTags_tag (w : List Char) (hne : w ≠ [])
    (hw : w.all isWordChar = true) : scanTags ('#' :: w) = ['#' :: w] := by
  have h0 : scanTags ('#' :: w) = scanTagsAux (some []) w := by
    unfold scanTags
    simp [scanTagsAux]
  rw [h0, scanTagsAux_words w hw []]
  simp [flushTag, hne]

theorem isTagShape_parts {t : List Char} (h : isTagShape t = true) :
    ∃ w, t = '#' :: w ∧ w ≠ [] ∧ w.all isWordChar = true := by
  rcases t with _ | ⟨c, w⟩
  · exact absurd h (by decide)
  · unfold isTagShape at h
    rw [Bool.and_eq_true, Bool.and_eq_true] at h
    obtain ⟨⟨hc, hne⟩, hall⟩ := h
    have hc' : c = '#' := by simpa using hc
    have hne' : w ≠ [] := by
      intro hnil
      rw [hnil] at hne
      simp at hne
    exact ⟨w, by rw [hc'], hne', hall⟩

theorem scanTags_joinSpace (tags : List (List Char))
    (h : ∀ t ∈ tags, isTagShape t = true) :
    scanTags (joinSpace tags) = tags := by
  induction tags with
  | nil => rfl
  | cons t ts ih =>
    obtain ⟨w, rfl, hne, hw⟩ := isTagShape_parts (h t (List.mem_cons_self t ts))
    rcases ts with _ | ⟨t', ts'⟩
    · exact scanTags_tag w hne hw
    · have hjoin : joinSpace (('#' :: w) :: t' :: ts') =
          ('#' :: w) ++ ' ' :: joinSpace (t' :: ts') := rfl
      rw [hjoin, scanTags_append ' ' (by decide) (by decide) ('#' :: w) _,
        scanTags_tag w hne hw,
        ih (fun u hu => h u (List.mem_cons_of_mem _ hu))]
      rfl

theorem scanTags_newline (b : List Char) :
    scanTags ('\n' :: b) = scanTags b := by
  unfold scanTags
  simp only [scanTagsAux]
  rw [if_neg (by decide)]

theorem industry_hashtags_spec (industry : List Char) :
    (industry_hashtags industry).Nodup ∧
      3 ≤ (industry_hashtags industry).length ∧
      ∀ t ∈ industry_hashtags industry, isTagShape t = true := by
  simp only [industry_hashtags]
  split_ifs <;> refine ⟨by decide, by decide, by decide⟩

theorem optimize_hashtags_noop (content industry : List Char)
    (h : ¬ (scanTags content).length < 3) :
    optimize_hashtags content industry = content := by
  unfold optimize_hashtags
  rw [if_neg h]

theorem optimize_hashtags_tags (content industry : List Char)
    (h : (scanTags content).length < 3) :
    scanTags (optimize_hashtags content industry) =
      scanTags content ++
        ((industry_hashtags industry).filter
          (fun t => decide (t ∉ scanTags content))).take
          (5 - (scanTags content).length) := by
  simp only [optimize_hashtags]
  rw [if_pos h]
  by_cases hempty : (((industry_hashtags industry).filter
      (fun t => decide (t ∉ scanTags content))).take
      (5 - (scanTags content).length)).isEmpty
  · rw [if_pos hempty]
    rw [List.isEmpty_iff] at hempty
    rw [hempty, List.append_nil]
  · rw [if_neg hempty]
    have hshape : ∀ t ∈ ((industry_hashtags industry).filter
        (fun t => decide (t ∉ scanTags content))).take
        (5 - (scanTags content).length), isTagShape t = true := by
      intro t ht
      have h1 : t ∈ (industry_hashtags industry).filter
          (fun t => decide (t ∉ scanTags content)) :=
        List.take_subset _ _ ht
      have h2 : t ∈ industry_hashtags industry := List.filter_subset' _ h1
      exact (industry_hashtags_spec industry).2.2 t h2
    rw [scanTags_append '\n' (by decide) (by decide) content _,
      scanTags_newline, scanTags_joinSpace _ hshape]

theorem length_filter_not_mem {α : Type _} [DecidableEq α] (L ex : List α)
    (p : α → Bool) (hp : ∀ t, p t = false → t ∈ ex) (hnd : L.Nodup) :
    L.length - ex.length ≤ (L.filter p).length := by
  have hsplit := List.length_eq_length_filter_add (l := L) p
  have hdropnodup : (L.filter (fun t => !p t)).Nodup :=
    (List.filter_sublist L).nodup hnd
  have hdropsub : ∀ t ∈ L.filter (fun t => !p t), t ∈ ex := by
    intro t ht
    have := List.of_mem_filter ht
    exact hp t (by simpa using this)
  have hdrople : (L.filter (fun t => !p t)).length ≤ ex.length := by
    calc (L.filter (fun t => !p t)).length
        = (L.filter (fun t => !p t)).toFinset.card :=
          (List.toFinset_card_of_nodup hdropnodup).symm
      _ ≤ ex.toFinset.card := Finset.card_le_card (fun x hx =>
          List.mem_toFinset.mpr (hdropsub x (List.mem_toFinset.mp hx)))
      _ ≤ ex.length := List.toFinset_card_le ex
  omega

theorem scanTags_optimize_ge3 (content industry : List Char) :
    3 ≤ (scanTags (optimize_hashtags content industry)).length := by
  by_cases h : (scanTags content).length < 3
  · rw [optimize_hashtags_tags content industry h, List.length_append,
      List.length_take]
    have hspec := industry_hashtags_spec industry
    have hfl : (industry_hashtags industry).length - (scanTags content).length ≤
        ((industry_hashtags industry).filter
          (fun t => decide (t ∉ scanTags content))).length :=
      length_filter_not_mem _ _ _ (fun t ht => by simpa using ht) hspec.1
    have h3 : 3 ≤ (industry_hashtags industry).length := hspec.2.1
    rcases Nat.le_total (5 - (scanTags content).length)
        (((industry_hashtags industry).filter
          (fun t => decide (t ∉ scanTags content))).length) with hm | hm
    · rw [Nat.min_eq_left hm]
      omega
    · rw [Nat.min_eq_right hm]
      omega
  · rw [optimize_hashtags_noop content industry h]
    omega

/-- **C7, amended.** One application of hashtag optimization never
duplicates existing tags and tops the hashtag count up into the 3–5 range
only when the content holds fewer than 3 hashtags; content already
holding 3 or more hashtags (possibly more than 5) is returned unchanged.
Consequently a second application returns its input verbatim: applying
the optimization twice yields exactly the same content — and so the same
hashtag set — as applying it once. -/
theorem optimize_hashtags_idempotent (content industry : List Char) :
    optimize_hashtags (optimize_hashtags content industry) industry =
      optimize_hashtags content industry :=
  optimize_hashtags_noop _ industry
    (Nat.not_lt.mpr (scanTags_optimize_ge3 content industry))

/-- **C7, counterexample.** The claim asserts that one application of
hashtag optimization always results in between 3 and 5 hashtags.  Content
already containing 6 hashtags is returned unchanged with its 6 hashtags. -/
theorem optimize_hashtags_six_tags :
    optimize_hashtags ("#a #b #c #d #e #f".data) ("technology".data) =
      "#a #b #c #d #e #f".data ∧
    (scanTags (optimize_hashtags ("#a #b #c #d #e #f".data)
      ("technology".data))).length = 6 := by
  constructor
  · decide
  · decide

/-!
`VoiceAnalyzer._ai_enhanced_analysis` (`analyzer.py`, lines 297–361): the
response-parsing tail of the method, from `response_text` on.  The
transport (OpenAI call) either yields a response text or raises — the
raising path is the method's `except` branch, which returns `{}` and is
modelled by the `none` cases below.  Strings are modelled as `List Char`
here, as in the hashtag section.
-/

/-- The parts of a JSON number literal `[-] ip [. fp] [e[-] ed]`; its
numeric value is `numValue`. -/
structure NumLit where
  neg : Bool
  ip : List Char
  fp : Option (List Char)
  eneg : Bool
  ed : Nat
deriving DecidableEq

/-- A JSON value as `json.loads` yields it for the flat objects this
parser accepts: number (kept as its literal parts), string, boolean or
null. -/
inductive JsonVal where
  | num (lit : NumLit)
  | str (s : List Char)
  | bool (b : Bool)
  | null
deriving DecidableEq

/-- One `dict` assignment `m[k] = v`, generically. -/
def setEntry {α β : Type _} [DecidableEq α] (m : List (α × β)) (k : α) (v : β) :
    List (α × β) :=
  if m.any (fun p => p.1 = k) then m.map (fun p => if p.1 = k then (k, v) else p)
  else m ++ [(k, v)]

/-- `response_text[start_idx:end_idx]` with
`start_idx = response_text.find('{')` and
`end_idx = response_text.rfind('}') + 1`, guarded by
`start_idx >= 0 and end_idx > start_idx` (`analyzer.py`, lines 335–339);
`none` is the guard-failed path on which the method returns `{}`. -/
def extract_json_str (response_text : List Char) : Option (List Char) :=
  match response_text.findIdx? (fun c => c = '{'),
      response_text.reverse.findIdx? (fun c => c = '}') with
  | some start_idx, some rev_idx =>
      let end_idx := response_text.length - rev_idx
      if start_idx < end_idx then
        some ((response_text.drop start_idx).take (end_idx - start_idx))
      else none
  | _, _ => none

/-- Skip JSON whitespace. -/
def skipWs (s : List Char) : List Char := s.dropWhile (fun c => c.isWhitespace)

/-- A JSON string literal without escape sequences (the scores object the
model is asked for needs none; a backslash is a parse failure here where
`json.loads` would interpret it). -/
def parseStringLit (s : List Char) : Option (List Char × List Char) :=
  match s with
  | '"' :: rest =>
      let content := rest.takeWhile (fun c => c ≠ '"' && c ≠ '\\')
      match rest.dropWhile (fun c => c ≠ '"' && c ≠ '\\') with
      | '"' :: after => some (content, after)
      | _ => none
  | _ => none

/-- A nonempty run of decimal digits. -/
def parseDigits (s : List Char) : Option (List Char × List Char) :=
  let ds := s.takeWhile Char.isDigit
  if ds.isEmpty then none else some (ds, s.dropWhile Char.isDigit)

def digitsToNat (ds : List Char) : Nat :=
  ds.foldl (fun n c => n * 10 + (c.toNat - '0'.toNat)) 0

/-- The rational value of a parsed JSON number literal — what Python's
`float()` of the literal denotes, exactly. -/
def numValue (lit : NumLit) : ℚ :=
  let mantissa : ℚ := (digitsToNat lit.ip : ℚ) +
    (match lit.fp with
     | some f => (digitsToNat f : ℚ) / ((10 : ℚ) ^ f.length)
     | none => 0)
  let signed := if lit.neg then -mantissa else mantissa
  if lit.eneg then signed / (10 : ℚ) ^ lit.ed else signed * (10 : ℚ) ^ lit.ed

def parseExpDigits (neg : Bool) (ip : List Char) (fp : Option (List Char))
    (s : List Char) : Option (NumLit × List Char) :=
  let (eneg, s1) : Bool × List Char :=
    match s with
    | '-' :: r => (true, r)
    | '+' :: r => (false, r)
    | _ => (false, s)
  match parseDigits s1 with
  | none => none
  | some (ed, s2) => some (⟨neg, ip, fp, eneg, digitsToNat ed⟩, s2)

def parseExpPart (neg : Bool) (ip : List Char) (fp : Option (List Char))
    (s : List Char) : Option (NumLit × List Char) :=
  match s with
  | 'e' :: r => parseExpDigits neg ip fp r
  | 'E' :: r => parseExpDigits neg ip fp r
  | _ => some (⟨neg, ip, fp, false, 0⟩, s)

/-- A JSON number. -/
def parseNumber (s : List Char) : Option (NumLit × List Char) :=
  let (neg, s1) : Bool × List Char :=
    match s with
    | '-' :: r => (true, r)
    | _ => (false, s)
  match parseDigits s1 with
  | none => none
  | some (ip, s2) =>
    match s2 with
    | '.' :: r =>
      match parseDigits r with
      | none => none
      | some (fp, s3) => parseExpPart neg ip (some fp) s3
    | _ => parseExpPart neg ip none s2

/-- A JSON scalar value. -/
def parseValue (s : List Char) : Option (JsonVal × List Char) :=
  match s with
  | 't' :: 'r' :: 'u' :: 'e' :: r => some (.bool true, r)
  | 'f' :: 'a' :: 'l' :: 's' :: 'e' :: r => some (.bool false, r)
  | 'n' :: 'u' :: 'l' :: 'l' :: r => some (.null, r)
  | '"' :: _ => (parseStringLit s).map (fun p => (.str p.1, p.2))
  | _ => (parseNumber s).map (fun p => (.num p.1, p.2))

/-- The members of a JSON object after its `'{'`: `"key": value` pairs
separated by `','`, closed by `'}'`; duplicate keys overwrite as
`json.loads` does.  `fuel` bounds the recursion (instantiated to more than
the input length, so it never runs out on a parse that advances). -/
def parseMembers (fuel : Nat) (obj : List (List Char × JsonVal))
    (s : List Char) : Option (List (List Char × JsonVal) × List Char) :=
  match fuel with
  | 0 => none
  | fuel' + 1 =>
    match parseStringLit (skipWs s) with
    | none => none
    | some (k, s1) =>
      match skipWs s1 with
      | ':' :: s2 =>
        match parseValue (skipWs s2) with
        | none => none
        | some (v, s3) =>
          match skipWs s3 with
          | ',' :: s4 => parseMembers fuel' (setEntry obj k v) s4
          | '}' :: s4 => some (setEntry obj k v, s4)
          | _ => none
      | _ => none

/-- `json.loads(json_str)` restricted to a single flat object of scalar
values (all the `_ai_enhanced_analysis` prompt requests): the whole input
must be exactly one object, optionally surrounded by whitespace —
trailing garbage is a parse failure, as in `json.loads`. -/
def parseFlatJson (s : List Char) : Option (List (List Char × JsonVal)) :=
  match skipWs s with
  | '{' :: s1 =>
    let parsed :=
      match skipWs s1 with
      | '}' :: s2 => some (([] : List (List Char × JsonVal)), s2)
      | _ => parseMembers (s.length + 1) [] s1
    match parsed with
    | some (obj, rest) => if (skipWs rest).isEmpty then some obj else none
    | none => none
  | _ => none

/-- `float(value)` for the values `isinstance(value, (int, float))`
accepts: numbers, and booleans (`bool` is a subclass of `int` in Python,
so `True`/`False` pass the check as `1.0`/`0.0`); strings and null are
rejected. -/
def pyNumeric : JsonVal → Option ℚ
  | .num lit => some (numValue lit)
  | .bool b => some (if b then 1 else 0)
  | _ => none

/-- The validation loop of `_ai_enhanced_analysis` (`analyzer.py`, lines
343–346): keep each entry whose value is numeric, clamped to `[0,1]`;
drop the rest silently. -/
def validate_scores (ai_scores : List (List Char × JsonVal)) :
    List (List Char × ℚ) :=
  ai_scores.foldl (fun acc kv =>
    match pyNumeric kv.2 with
    | some x => setEntry acc kv.1 (clamp01 x)
    | none => acc) []

/-- The response-parsing tail of `VoiceAnalyzer._ai_enhanced_analysis`:
extract the substring from the first `'{'` to the last `'}'`, parse it as
JSON, validate and clamp the entries; every failure path returns the
empty mapping. -/
def ai_enhanced_analysis (response_text : List Char) : List (List Char × ℚ) :=
  match extract_json_str response_text with
  | none => []
  | some json_str =>
    match parseFlatJson json_str with
    | none => []
    | some ai_scores => validate_scores ai_scores

/-- **C9, counterexample.**  Two claimed behaviours fail on the code.
First, an out-of-range numeric entry is *not* dropped: on the response
`'Sure! {"formality_level": 2.0}'` the value `2.0` is outside `[0,1]`,
yet the result keeps `formality_level` (clamped to `1.0`) instead of
omitting it.  Second, the extraction is not "the first JSON object
substring": on `'{"formality_level": 0.5} }'` the first JSON object
parses fine, but the code takes the substring from the first `'{'` to the
*last* `'}'`, whose parse fails, and returns the empty mapping. -/
theorem ai_enhanced_analysis_not_as_claimed :
    ai_enhanced_analysis ("Sure! \x7b\"formality_level\": 2.0\x7d".data) =
      [("formality_level".data, 1)] ∧
    ai_enhanced_analysis ("\x7b\"formality_level\": 0.5\x7d \x7d".data) = [] := by
  constructor
  · have h1 : extract_json_str ("Sure! \x7b\"formality_level\": 2.0\x7d".data) =
        some ("\x7b\"formality_level\": 2.0\x7d".data) := by decide
    have h2 : parseFlatJson ("\x7b\"formality_level\": 2.0\x7d".data) =
        some [("formality_level".data,
          .num ⟨false, ['2'], some ['0'], false, 0⟩)] := by decide
    have hd2 : digitsToNat ['2'] = 2 := by decide
    have hd0 : digitsToNat ['0'] = 0 := by decide
    unfold ai_enhanced_analysis
    rw [h1]
    simp only [h2, validate_scores, List.foldl_cons, List.foldl_nil, pyNumeric,
      setEntry, List.any_nil, Bool.false_eq_true, if_false, List.nil_append,
      numValue, clamp01, hd2, hd0]
    norm_num
  · have h1 : extract_json_str ("\x7b\"formality_level\": 0.5\x7d \x7d".data) =
        some ("\x7b\"formality_level\": 0.5\x7d \x7d".data) := by decide
    have h2 : parseFlatJson ("\x7b\"formality_level\": 0.5\x7d \x7d".data) =
        none := by decide
    unfold ai_enhanced_analysis
    rw [h1]
    simp only [h2]

theorem mem_setEntry {α β : Type _} [DecidableEq α] {m : List (α × β)}
    {k : α} {v : β} : ∀ p ∈ setEntry m k v, p = (k, v) ∨ p ∈ m := by
  intro p hp
  unfold setEntry at hp
  by_cases h : m.any (fun q => q.1 = k) = true
  · rw [if_pos h] at hp
    rcases List.mem_map.mp hp with ⟨q, hq, hrepl⟩
    by_cases hqk : q.1 = k
    · rw [if_pos hqk] at hrepl
      exact Or.inl hrepl.symm
    · rw [if_neg hqk] at hrepl
      exact Or.inr (hrepl ▸ hq)
  · rw [if_neg h] at hp
    rcases List.mem_append.mp hp with h1 | h1
    · exact Or.inr h1
    · exact Or.inl (List.mem_singleton.mp h1)

/-- Every entry of the validated mapping stems from an input entry with a
numeric value, clamped to `[0,1]`. -/
theorem validate_scores_provenance (obj : List (List Char × JsonVal)) :
    ∀ kv ∈ validate_scores obj,
      ∃ v, (kv.1, v) ∈ obj ∧ ∃ x, pyNumeric v = some x ∧ kv.2 = clamp01 x := by
  unfold validate_scores
  suffices h : ∀ (l : List (List Char × JsonVal)), (∀ e ∈ l, e ∈ obj) →
      ∀ (acc : List (List Char × ℚ)),
      (∀ kv ∈ acc, ∃ v, (kv.1, v) ∈ obj ∧
        ∃ x, pyNumeric v = some x ∧ kv.2 = clamp01 x) →
      ∀ kv ∈ l.foldl (fun acc kv =>
          match pyNumeric kv.2 with
          | some x => setEntry acc kv.1 (clamp01 x)
          | none => acc) acc,
        ∃ v, (kv.1, v) ∈ obj ∧ ∃ x, pyNumeric v = some x ∧ kv.2 = clamp01 x by
    exact h obj (fun e he => he) [] (by simp)
  intro l
  induction l with
  | nil =>
    intro _ acc hacc
    exact hacc
  | cons e rest ih =>
    intro hl acc hacc
    rw [List.foldl_cons]
    apply ih (fun u hu => hl u (List.mem_cons_of_mem e hu))
    intro kv hkv
    rcases he : pyNumeric e.2 with _ | x
    · rw [he] at hkv
      exact hacc kv hkv
    · rw [he] at hkv
      rcases mem_setEntry kv hkv with heq | hmem
      · refine ⟨e.2, ?_, x, he, by rw [heq]⟩
        rw [heq]
        exact hl (e.1, e.2) (by rw [Prod.mk.eta]; exact List.mem_cons_self e rest)
      · exact hacc kv hmem

/-- **C9, amended.** The estimator takes the substring from the first
`'{'` to the last `'}'` of the response (not the first balanced JSON
object), parses it as JSON, keeps only entries whose value is numeric
(booleans included, Python treating `bool` as `int`) with each kept value
clamped to `[0,1]` — an out-of-range numeric value is clamped and kept,
not dropped — drops non-numeric entries silently, and returns an empty
mapping on any transport or parse failure. -/
theorem ai_enhanced_analysis_spec (response_text : List Char) :
    (∀ kv ∈ ai_enhanced_analysis response_text, 0 ≤ kv.2 ∧ kv.2 ≤ 1) ∧
    ((extract_json_str response_text).bind parseFlatJson = none →
      ai_enhanced_analysis response_text = []) ∧
    (∀ obj, (extract_json_str response_text).bind parseFlatJson = some obj →
      ai_enhanced_analysis response_text = validate_scores obj ∧
      ∀ kv ∈ validate_scores obj,
        ∃ v, (kv.1, v) ∈ obj ∧ ∃ x, pyNumeric v = some x ∧ kv.2 = clamp01 x) := by
  refine ⟨?_, ?_, ?_⟩
  · intro kv hkv
    unfold ai_enhanced_analysis at hkv
    rcases hext : extract_json_str response_text with _ | js
    · simp only [hext] at hkv
      exact absurd hkv (List.not_mem_nil kv)
    · simp only [hext] at hkv
      rcases hp : parseFlatJson js with _ | obj
      · simp only [hp] at hkv
        exact absurd hkv (List.not_mem_nil kv)
      · simp only [hp] at hkv
        obtain ⟨v, _, x, _, heq⟩ := validate_scores_provenance obj kv hkv
        rw [heq]
        exact ⟨clamp01_nonneg _, clamp01_le_one _⟩
  · intro hnone
    unfold ai_enhanced_analysis
    rcases hext : extract_json_str response_text with _ | js
    · rfl
    · rw [hext] at hnone
      rw [Option.some_bind] at hnone
      simp only [hext, hnone]
  · intro obj hobj
    rcases hext : extract_json_str response_text with _ | js
    · rw [hext, Option.none_bind] at hobj
      exact absurd hobj (by simp)
    · rw [hext, Option.some_bind] at hobj
      constructor
      · unfold ai_enhanced_analysis
        simp only [hext, hobj]
      · exact validate_scores_provenance obj

end PBD
